import Mathlib

/-
Verification development for the daily-code-game backend (src/backend/server.js).
The definitions below are a shallow embedding of the deterministic daily-code
generator, the submission processor, the leaderboard ranker and the persistence
records they act on; the theorems at the end settle the specification claims.
-/

/-! ### Deterministic sequence generator (server.js, lines 75-110) -/

/-- JavaScript ToInt32: fold an integer into the signed 32-bit range
`[-2^31, 2^31)`, as performed by the `<<` and `&` operators. -/
def toInt32 (n : Int) : Int := (n + 2147483648) % 4294967296 - 2147483648

/-- One step of `hashCode` (lines 98-99):
`hash = ((hash << 5) - hash) + char; hash = hash & hash`.
`hash << 5` coerces its operand to Int32 and shifts (here `toInt32 (h * 32)`);
the subtraction and addition are exact (the operands are far below 2^53);
`hash & hash` folds the result back into the signed 32-bit range. -/
def hashStep (h : Int) (c : Char) : Int := toInt32 (toInt32 (h * 32) - h + (c.toNat : Int))

/-- Embeds `hashCode(str)` (lines 94-102): accumulate `hashStep` over the characters
starting from 0 and return `Math.abs(hash)`.  `Char.toNat` is the code point,
which coincides with the UTF-16 code unit used by `charCodeAt` for every
basic-plane character, in particular for ASCII date strings. -/
def hashCode (s : String) : Nat := (s.data.foldl hashStep 0).natAbs

/-- Embeds `seededRandom` state update (line 107):
`state = (state * 1664525 + 1013904223) % 4294967296`. -/
def lcgNext (state : Nat) : Nat := (state * 1664525 + 1013904223) % 4294967296

/-- The value returned by one `rng()` call whose post-update state is `st`:
`state / 4294967296` (line 108).  The double-precision division is exact here
(`st < 2^32 ≤ 2^53` and the divisor is a power of two), so ℚ models it. -/
def rngOut (st : Nat) : ℚ := (st : ℚ) / 4294967296

/-- The LCG state after `n` calls of `rng()` starting from `seed`. -/
def lcgState (seed : Nat) : Nat → Nat
  | 0 => seed
  | n + 1 => lcgNext (lcgState seed n)

/-- Embeds `Math.floor(rng() * availableNumbers.length)` (line 87), where `st` is the
post-update LCG state and `len` the pool size.  The product is again exact in
double precision (at most 35 significant bits). -/
def drawIndex (st len : Nat) : Nat := (⌊rngOut st * (len : ℚ)⌋).toNat

/-- The candidate pool of one draw (lines 83-85): all of `[1..6]` when
duplicates are allowed, otherwise the numbers not already in `code`. -/
def pool (allowDuplicates : Bool) (code : List Nat) : List Nat :=
  if allowDuplicates then [1, 2, 3, 4, 5, 6]
  else [1, 2, 3, 4, 5, 6].filter (fun n => ! code.contains n)

/-- The `for` loop of `generateDailyCode` (lines 82-89) with `i` iterations
remaining, current LCG state `st` and accumulator `code`.  A JS array access
out of range would push `undefined`; the embedding totalises the access with
`getD _ 0`, and `genLoopChecked` below certifies the default is never taken. -/
def genLoop (allowDuplicates : Bool) : Nat → Nat → List Nat → List Nat
  | 0, _, code => code
  | i + 1, st, code =>
    let available := pool allowDuplicates code
    let st2 := lcgNext st
    let idx := drawIndex st2 available.length
    genLoop allowDuplicates i st2 (code ++ [available.getD idx 0])

/-- Embeds `generateDailyCode(dateString, allowDuplicates)` (lines 75-92). -/
def generateDailyCode (dateString : String) (allowDuplicates : Bool) : List Nat :=
  genLoop allowDuplicates 4 (hashCode dateString) []

/-- Variant of `genLoop` that fails, like a JS out-of-range array access
yielding `undefined`, instead of defaulting. -/
def genLoopChecked (allowDuplicates : Bool) : Nat → Nat → List Nat → Option (List Nat)
  | 0, _, code => some code
  | i + 1, st, code =>
    let available := pool allowDuplicates code
    let st2 := lcgNext st
    let idx := drawIndex st2 available.length
    match available[idx]? with
    | none => none
    | some v => genLoopChecked allowDuplicates i st2 (code ++ [v])

/-- The per-character accumulation step as the specification words it:
`hash = hash*31 + charCode` with 32-bit signed wraparound at every step. -/
def hashStepSpec (h : Int) (c : Char) : Int := toInt32 (h * 31 + (c.toNat : Int))

/-- The formulation the specification gives of the whole hash accumulation. -/
def hashAccumSpec (s : String) : Int := s.data.foldl hashStepSpec 0

/-! ### Calendar dates (the `new Date(date)` / `setDate(-1)` / `toISOString`
idiom of lines 193-195, restricted to ISO `YYYY-MM-DD` inputs) -/

/-- Gregorian leap-year test. -/
def isLeap (y : Nat) : Bool := (y % 4 == 0 && y % 100 != 0) || y % 400 == 0

/-- Number of days of month `m` of year `y`. -/
def daysInMonth (y m : Nat) : Nat :=
  if m = 2 then (if isLeap y then 29 else 28)
  else if m = 4 ∨ m = 6 ∨ m = 9 ∨ m = 11 then 30
  else 31

/-- A parsed calendar date. -/
structure CalDate where
  year : Nat
  month : Nat
  day : Nat
deriving DecidableEq, Repr

/-- The calendar day immediately preceding `d`. -/
def prevDate (d : CalDate) : CalDate :=
  if 2 ≤ d.day then { d with day := d.day - 1 }
  else if 2 ≤ d.month then { year := d.year, month := d.month - 1, day := daysInMonth d.year (d.month - 1) }
  else { year := d.year - 1, month := 12, day := 31 }

/-- Split a character list at every dash. -/
def splitDashAux : List Char → List Char → List (List Char)
  | [], acc => [acc.reverse]
  | c :: cs, acc =>
    if c = '-' then acc.reverse :: splitDashAux cs [] else splitDashAux cs (c :: acc)

/-- Parse a non-empty all-digit character list as a decimal number. -/
def digitsToNatAux : List Char → Nat → Option Nat
  | [], acc => some acc
  | c :: cs, acc =>
    if c.isDigit then digitsToNatAux cs (acc * 10 + (c.toNat - 48)) else none

/-- Parse a decimal field of a date string. -/
def digitsToNat : List Char → Option Nat
  | [] => none
  | cs => digitsToNatAux cs 0

/-- Parse an ISO `YYYY-MM-DD` string; `none` models the `Invalid Date` that
`new Date(...)` produces on a string that is not a valid calendar date
(`toISOString` then throws). -/
def parseISO (s : String) : Option CalDate :=
  match (splitDashAux s.data []).map digitsToNat with
  | [some y, some m, some d] =>
    if 1 ≤ m ∧ m ≤ 12 ∧ 1 ≤ d ∧ d ≤ daysInMonth y m then some ⟨y, m, d⟩ else none
  | _ => none

/-- Left-pad the decimal rendering of `n` with zeroes to `width` digits. -/
def padNum (width n : Nat) : String :=
  String.mk (List.replicate (width - (toString n).length) '0') ++ toString n

/-- Render a calendar date as ISO `YYYY-MM-DD`. -/
def formatISO (d : CalDate) : String :=
  padNum 4 d.year ++ "-" ++ padNum 2 d.month ++ "-" ++ padNum 2 d.day

/-- Lines 193-195: the ISO string of the calendar day before `date`.  Total
stand-in: `submit` below reaches the comparison only when `date` parses, so
the `getD` default is never observed through `submit`. -/
def yesterdayString (date : String) : String :=
  formatISO (prevDate ((parseISO date).getD ⟨1970, 1, 1⟩))

/-! ### Persistence records (schemas, lines 22-67) -/

/-- Embeds `PlayerSchema.stats` with its schema defaults (zeroed counters,
`lastPlayDate` and `fastestTime` unset). -/
structure Stats where
  gamesPlayed : Nat
  gamesWon : Nat
  currentStreak : Nat
  maxStreak : Nat
  totalGuesses : Nat
  lastPlayDate : Option String
  fastestTime : Option Nat
deriving DecidableEq, Repr

/-- The schema defaults of a fresh `stats` record. -/
def initStats : Stats :=
  { gamesPlayed := 0, gamesWon := 0, currentStreak := 0, maxStreak := 0,
    totalGuesses := 0, lastPlayDate := none, fastestTime := none }

/-- One element of `PlayerSchema.games`. -/
structure GameEntry where
  date : String
  won : Bool
  guesses : Nat
  time : Nat
  attempts : List (List Nat)
deriving DecidableEq, Repr

/-- A `Player` document (credential fields are irrelevant to submission). -/
structure Player where
  playerId : String
  username : Option String
  stats : Stats
  games : List GameEntry
deriving DecidableEq, Repr

/-- Embeds `new Player({ playerId })` (line 177). -/
def newPlayer (pid : String) : Player :=
  { playerId := pid, username := none, stats := initStats, games := [] }

/-- A `DailyPuzzle` document.  `averageGuesses` is a JS float; its exact value
here is rational (the embedding ignores double rounding, which the spec also
does). -/
structure Puzzle where
  date : String
  solution : List Nat
  totalPlayers : Nat
  completedPlayers : Nat
  fastestTime : Option Nat
  fastestPlayer : Option String
  averageGuesses : ℚ
  totalGuesses : Nat
deriving DecidableEq, Repr

/-- Embeds `new DailyPuzzle({ date, solution })` (lines 123-126) with schema defaults. -/
def newPuzzle (d : String) (solution : List Nat) : Puzzle :=
  { date := d, solution := solution, totalPlayers := 0, completedPlayers := 0,
    fastestTime := none, fastestPlayer := none, averageGuesses := 0, totalGuesses := 0 }

/-- One element of `LeaderboardSchema.entries`. -/
structure LBEntry where
  playerId : String
  username : String
  score : ℚ
  time : Nat
  guesses : Nat
deriving DecidableEq, Repr

/-- A `Leaderboard` document. -/
structure Board where
  date : String
  type : String
  entries : List LBEntry
deriving DecidableEq, Repr

/-- Embeds `new Leaderboard({ date, type: "daily", entries: [] })` (line 327). -/
def newBoard (d : String) : Board := { date := d, type := "daily", entries := [] }

/-- The collections the submission path touches. -/
structure DB where
  players : List Player
  puzzles : List Puzzle
  boards : List Board
deriving DecidableEq, Repr

/-- Replace the first element matched by `key`, or append if none matches:
the effect of a Mongoose `save` of a fetched-or-new document, under the
uniqueness constraint on the key. -/
def upsertBy {α : Type} (key : α → Bool) (x : α) : List α → List α
  | [] => [x]
  | y :: ys => if key y then x :: ys else y :: upsertBy key x ys

/-- Embeds `Player.findOne({ playerId })`. -/
def findPlayer (db : DB) (pid : String) : Option Player :=
  db.players.find? (fun p => p.playerId == pid)

/-- Embeds `DailyPuzzle.findOne({ date })`. -/
def findPuzzle (db : DB) (d : String) : Option Puzzle :=
  db.puzzles.find? (fun p => p.date == d)

/-- Embeds `Leaderboard.findOne({ date, type: "daily" })` (line 325). -/
def findDailyBoard (db : DB) (d : String) : Option Board :=
  db.boards.find? (fun b => b.date == d && b.type == "daily")

/-- Embeds `player.save()`. -/
def savePlayer (db : DB) (p : Player) : DB :=
  { db with players := upsertBy (fun q => q.playerId == p.playerId) p db.players }

/-- Embeds `puzzle.save()`. -/
def savePuzzle (db : DB) (pz : Puzzle) : DB :=
  { db with puzzles := upsertBy (fun q => q.date == pz.date) pz db.puzzles }

/-- Embeds `dailyBoard.save()`. -/
def saveBoard (db : DB) (b : Board) : DB :=
  { db with boards := upsertBy (fun c => c.date == b.date && c.type == b.type) b db.boards }

/-- JavaScript `x || y` on an optional string: `null`, `undefined` and the
empty string are falsy (lines 236 and 334). -/
def strOr (x : Option String) (y : String) : String :=
  match x with
  | none => y
  | some s => if s = "" then y else s

/-! ### Submission processor (POST /api/game/submit, lines 170-258) -/

/-- The observable outcome of a submission: HTTP 200, the 400
"Already played today" rejection, or a 500 from a thrown exception. -/
inductive SubmitOutcome
  | success
  | alreadyPlayed
  | internalError
deriving DecidableEq, Repr

/-- The player-stats mutation of an accepted submission (lines 186-212). -/
def updStats (s : Stats) (date : String) (won : Bool) (guesses time : Nat) : Stats :=
  let s1 := { s with gamesPlayed := s.gamesPlayed + 1 }
  if won then
    let s2 := { s1 with gamesWon := s1.gamesWon + 1, totalGuesses := s1.totalGuesses + guesses }
    let cs := if s2.lastPlayDate = some (yesterdayString date) then s2.currentStreak + 1 else 1
    let s3 := { s2 with currentStreak := cs, maxStreak := max s2.maxStreak cs }
    let ft := match s3.fastestTime with
      | none => some time
      | some v => if v = 0 ∨ time < v then some time else some v
    { s3 with fastestTime := ft, lastPlayDate := some date }
  else
    { s1 with currentStreak := 0, lastPlayDate := some date }

/-- The puzzle-aggregate mutation of an accepted submission (lines 228-238);
`uname` is the username of the submitting player (`fastestPlayer` gets
`player.username || playerId`, line 236). -/
def updPuzzle (pz : Puzzle) (pid : String) (uname : Option String) (won : Bool)
    (guesses time : Nat) : Puzzle :=
  let p1 := { pz with totalPlayers := pz.totalPlayers + 1 }
  if won then
    let p2 := { p1 with completedPlayers := p1.completedPlayers + 1,
                        totalGuesses := p1.totalGuesses + guesses }
    let p3 := { p2 with averageGuesses := (p2.totalGuesses : ℚ) / (p2.completedPlayers : ℚ) }
    match p3.fastestTime with
    | none => { p3 with fastestTime := some time, fastestPlayer := some (strOr uname pid) }
    | some v =>
      if v = 0 ∨ time < v then { p3 with fastestTime := some time, fastestPlayer := some (strOr uname pid) }
      else p3
  else p1

/-- The score formula (line 330): `1000 - (guesses * 100) - (time / 10)`. -/
def score (guesses time : Nat) : ℚ := 1000 - (guesses : ℚ) * 100 - (time : ℚ) / 10

/-- The entry pushed onto the daily board (lines 332-338). -/
def mkEntry (p : Player) (guesses time : Nat) : LBEntry :=
  { playerId := p.playerId, username := strOr p.username "Anonymous",
    score := score guesses time, time := time, guesses := guesses }

/-- Insert an entry into a score-descending list, before the first element
whose score is not larger — i.e. after every strictly larger score and before
every equal one, which is where a stable descending sort puts a later element. -/
def insertDesc (e : LBEntry) : List LBEntry → List LBEntry
  | [] => [e]
  | x :: xs => if x.score ≤ e.score then e :: x :: xs else x :: insertDesc e xs

/-- Embeds `entries.sort((a, b) => b.score - a.score)` (line 340).
`Array.prototype.sort` is a stable sort, and the stable sort of a list under a
total preorder is unique; stable insertion sort computes it. -/
def sortEntriesDesc : List LBEntry → List LBEntry
  | [] => []
  | x :: xs => insertDesc x (sortEntriesDesc xs)

/-- Embeds `updateLeaderboards(date, player, won, guesses, time)` (lines 321-344). -/
def updateLeaderboards (db : DB) (date : String) (p : Player) (won : Bool)
    (guesses time : Nat) : DB :=
  if won then
    let dailyBoard := (findDailyBoard db date).getD (newBoard date)
    let entries2 := (sortEntriesDesc (dailyBoard.entries ++ [mkEntry p guesses time])).take 100
    saveBoard db { dailyBoard with entries := entries2 }
  else db

/-- POST /api/game/submit (lines 170-258).  The second guard models the
`RangeError` thrown by `toISOString()` on an invalid date (won branch only,
before any save); the `none` branch of the puzzle lookup models the
`TypeError` thrown at line 249 when the response reads `puzzle.totalPlayers`
of a missing puzzle — the player document has already been saved there. -/
def submit (db : DB) (pid date : String) (won : Bool) (guesses time : Nat)
    (attempts : List (List Nat)) : DB × SubmitOutcome :=
  let player := (findPlayer db pid).getD (newPlayer pid)
  if player.games.any (fun g => g.date == date) then (db, .alreadyPlayed)
  else if won && (parseISO date).isNone then (db, .internalError)
  else
    let player2 := { player with
      stats := updStats player.stats date won guesses time,
      games := player.games ++ [{ date := date, won := won, guesses := guesses,
                                  time := time, attempts := attempts }] }
    let db2 := savePlayer db player2
    match findPuzzle db2 date with
    | none => (db2, .internalError)
    | some puzzle =>
      let puzzle2 := updPuzzle puzzle pid player2.username won guesses time
      let db3 := savePuzzle db2 puzzle2
      let db4 := updateLeaderboards db3 date player2 won guesses time
      (db4, .success)

/-! ### Derived trajectories used by the claims -/

/-- The stats-relevant fields of one submission request. -/
structure PlayReq where
  date : String
  won : Bool
  guesses : Nat
  time : Nat
deriving DecidableEq, Repr

/-- Fold a sequence of accepted submissions over a stats record. -/
def playAll (s : Stats) (ps : List PlayReq) : Stats :=
  ps.foldl (fun acc r => updStats acc r.date r.won r.guesses r.time) s

/-- The value of `currentStreak` after each submission of the sequence. -/
def streakHistory (s : Stats) : List PlayReq → List Nat
  | [] => []
  | r :: rs =>
    let s2 := updStats s r.date r.won r.guesses r.time
    s2.currentStreak :: streakHistory s2 rs

/-- The entries of the daily board of `date` (empty when no board exists). -/
def boardEntries (db : DB) (date : String) : List LBEntry :=
  ((findDailyBoard db date).getD (newBoard date)).entries

/-! ### Concrete stores used to instantiate the theorems with hypotheses -/

/-- An empty store: no players, no puzzles, no boards. -/
def db0C1 : DB := { players := [], puzzles := [], boards := [] }

/-- The player document that the submission of `("alice", "2024-01-02", lost,
3 guesses, 500 ms)` persists into the empty store. -/
def p1C1 : Player :=
  { playerId := "alice", username := none,
    stats := { gamesPlayed := 1, gamesWon := 0, currentStreak := 0, maxStreak := 0,
               totalGuesses := 0, lastPlayDate := some "2024-01-02", fastestTime := none },
    games := [{ date := "2024-01-02", won := false, guesses := 3, time := 500, attempts := [] }] }

/-- A player who already has a game entry for 2024-01-01. -/
def p0C2 : Player :=
  { playerId := "alice", username := none,
    stats := { gamesPlayed := 1, gamesWon := 1, currentStreak := 1, maxStreak := 1,
               totalGuesses := 3, lastPlayDate := some "2024-01-01", fastestTime := some 200 },
    games := [{ date := "2024-01-01", won := true, guesses := 3, time := 200, attempts := [] }] }

/-- A store holding only `p0C2`. -/
def db0C2 : DB := { players := [p0C2], puzzles := [], boards := [] }

/-- An empty store for the leaderboard instantiation. -/
def db0C8 : DB := { players := [], puzzles := [], boards := [] }

/-- The entry recorded for a fresh player winning with 4 guesses in 200 ms. -/
def e0C8 : LBEntry := mkEntry (newPlayer "bob") 4 200

/-! ### Generator lemmas -/

theorem lcgNext_lt (st : Nat) : lcgNext st < 4294967296 :=
  Nat.mod_lt _ (by norm_num)

theorem drawIndex_eq (st len : Nat) : drawIndex st len = st * len / 4294967296 := by
  unfold drawIndex rngOut
  have h : (st : ℚ) / 4294967296 * (len : ℚ) = ((st * len : ℕ) : ℚ) / ((4294967296 : ℕ) : ℚ) := by
    push_cast
    ring
  rw [h, Int.floor_toNat, Nat.floor_div_nat, Nat.floor_natCast]

theorem drawIndex_lt (st len : Nat) (hst : st < 4294967296) (hlen : 0 < len) :
    drawIndex st len < len := by
  rw [drawIndex_eq]
  apply Nat.div_lt_of_lt_mul
  exact Nat.mul_lt_mul_of_lt_of_le hst (Nat.le_refl len) hlen

theorem mem_pool (aD : Bool) (code : List Nat) (x : Nat) (hx : x ∈ pool aD code) :
    x ∈ [1, 2, 3, 4, 5, 6] := by
  cases aD
  · simp only [pool, Bool.false_eq_true, if_false] at hx
    exact (List.mem_filter.mp hx).1
  · exact hx

theorem mem_pool_false (code : List Nat) (x : Nat) (hx : x ∈ pool false code) :
    x ∈ [1, 2, 3, 4, 5, 6] ∧ x ∉ code := by
  simp only [pool, Bool.false_eq_true, if_false] at hx
  obtain ⟨h1, h2⟩ := List.mem_filter.mp hx
  refine ⟨h1, fun hc => ?_⟩
  have : code.contains x = true := List.elem_eq_true_of_mem hc
  rw [this] at h2
  exact Bool.false_ne_true h2

theorem pool_false_length (code : List Nat) :
    6 - code.length ≤ (pool false code).length := by
  have hsplit := @List.length_eq_length_filter_add Nat [1, 2, 3, 4, 5, 6]
    (fun n => code.contains n)
  have hle : (List.filter (fun n => code.contains n) [1, 2, 3, 4, 5, 6]).length
      ≤ code.length := by
    apply List.Subperm.length_le
    apply List.Nodup.subperm
    · exact List.Nodup.filter _ (by decide)
    · intro x hx
      exact List.mem_of_elem_eq_true ((List.mem_filter.mp hx).2)
  have hpool : (pool false code).length
      = (List.filter (fun n => ! code.contains n) [1, 2, 3, 4, 5, 6]).length := rfl
  simp only [List.length_cons, List.length_nil] at hsplit
  omega

theorem genLoop_succ (aD : Bool) (i st : Nat) (code : List Nat) :
    genLoop aD (i + 1) st code
      = genLoop aD i (lcgNext st)
          (code ++ [(pool aD code).getD (drawIndex (lcgNext st) (pool aD code).length) 0]) := rfl

theorem genLoopChecked_succ_of_lt (aD : Bool) (i st : Nat) (code : List Nat)
    (h : drawIndex (lcgNext st) (pool aD code).length < (pool aD code).length) :
    genLoopChecked aD (i + 1) st code
      = genLoopChecked aD i (lcgNext st)
          (code ++ [(pool aD code).getD (drawIndex (lcgNext st) (pool aD code).length) 0]) := by
  have hg : (pool aD code)[drawIndex (lcgNext st) (pool aD code).length]?
      = some ((pool aD code).getD (drawIndex (lcgNext st) (pool aD code).length) 0) := by
    rw [List.getD_eq_getElem?_getD, List.getElem?_eq_getElem h]
    rfl
  simp only [genLoopChecked, hg]

theorem getD_mem_of_lt (l : List Nat) (i : Nat) (h : i < l.length) : l.getD i 0 ∈ l := by
  rw [List.getD_eq_getElem?_getD, List.getElem?_eq_getElem h]
  exact List.getElem_mem h

theorem genLoop_false_inv (i : Nat) : ∀ (st : Nat) (code : List Nat),
    code.Nodup → (∀ x ∈ code, x ∈ [1, 2, 3, 4, 5, 6]) → code.length + i ≤ 6 →
    (genLoop false i st code).length = code.length + i
      ∧ (genLoop false i st code).Nodup
      ∧ (∀ x ∈ genLoop false i st code, x ∈ [1, 2, 3, 4, 5, 6])
      ∧ genLoopChecked false i st code = some (genLoop false i st code) := by
  induction i with
  | zero =>
    intro st code hnd hmem _
    exact ⟨rfl, hnd, hmem, rfl⟩
  | succ i ih =>
    intro st code hnd hmem hle
    have hpoollen : 0 < (pool false code).length := by
      have h := pool_false_length code
      omega
    have hidx : drawIndex (lcgNext st) (pool false code).length < (pool false code).length :=
      drawIndex_lt _ _ (lcgNext_lt st) hpoollen
    set x := (pool false code).getD (drawIndex (lcgNext st) (pool false code).length) 0 with hxdef
    have hxmem : x ∈ pool false code := getD_mem_of_lt _ _ hidx
    obtain ⟨hx16, hxnc⟩ := mem_pool_false code x hxmem
    have hnd2 : (code ++ [x]).Nodup := by
      rw [List.nodup_append]
      refine ⟨hnd, List.nodup_singleton _, ?_⟩
      intro a ha hax
      have hax2 : a = x := by simpa using hax
      exact hxnc (hax2 ▸ ha)
    have hmem2 : ∀ y ∈ code ++ [x], y ∈ [1, 2, 3, 4, 5, 6] := by
      intro y hy
      rcases List.mem_append.mp hy with h | h
      · exact hmem y h
      · have hyx : y = x := by simpa using h
        rw [hyx]
        exact hx16
    have hle2 : (code ++ [x]).length + i ≤ 6 := by
      simp only [List.length_append, List.length_cons, List.length_nil]
      omega
    obtain ⟨l1, l2, l3, l4⟩ := ih (lcgNext st) (code ++ [x]) hnd2 hmem2 hle2
    rw [genLoop_succ, genLoopChecked_succ_of_lt false i st code hidx, ← hxdef]
    refine ⟨?_, l2, l3, l4⟩
    rw [l1]
    simp only [List.length_append, List.length_cons, List.length_nil]
    omega

theorem genLoop_true_inv (i : Nat) : ∀ (st : Nat) (code : List Nat),
    (∀ x ∈ code, x ∈ [1, 2, 3, 4, 5, 6]) →
    (genLoop true i st code).length = code.length + i
      ∧ (∀ x ∈ genLoop true i st code, x ∈ [1, 2, 3, 4, 5, 6])
      ∧ genLoopChecked true i st code = some (genLoop true i st code) := by
  induction i with
  | zero =>
    intro st code hmem
    exact ⟨rfl, hmem, rfl⟩
  | succ i ih =>
    intro st code hmem
    have hpoollen : 0 < (pool true code).length := by simp [pool]
    have hidx : drawIndex (lcgNext st) (pool true code).length < (pool true code).length :=
      drawIndex_lt _ _ (lcgNext_lt st) hpoollen
    set x := (pool true code).getD (drawIndex (lcgNext st) (pool true code).length) 0 with hxdef
    have hxmem : x ∈ pool true code := getD_mem_of_lt _ _ hidx
    have hx16 : x ∈ [1, 2, 3, 4, 5, 6] := mem_pool true code x hxmem
    have hmem2 : ∀ y ∈ code ++ [x], y ∈ [1, 2, 3, 4, 5, 6] := by
      intro y hy
      rcases List.mem_append.mp hy with h | h
      · exact hmem y h
      · have hyx : y = x := by simpa using h
        rw [hyx]
        exact hx16
    obtain ⟨l1, l2, l3⟩ := ih (lcgNext st) (code ++ [x]) hmem2
    rw [genLoop_succ, genLoopChecked_succ_of_lt true i st code hidx, ← hxdef]
    refine ⟨?_, l2, l3⟩
    rw [l1]
    simp only [List.length_append, List.length_cons, List.length_nil]
    omega

theorem generateDailyCode_length (s : String) (aD : Bool) :
    (generateDailyCode s aD).length = 4 := by
  cases aD
  · exact (genLoop_false_inv 4 (hashCode s) [] (by simp) (by simp) (by simp)).1
  · exact (genLoop_true_inv 4 (hashCode s) [] (by simp)).1

/-! ### Hash lemmas -/

theorem hashStep_eq (h : Int) (c : Char) : hashStep h c = hashStepSpec h c := by
  unfold hashStep hashStepSpec toInt32
  omega

theorem hashCode_eq_spec (s : String) : hashCode s = (hashAccumSpec s).natAbs := by
  unfold hashCode hashAccumSpec
  have hfun : hashStep = hashStepSpec := funext fun h => funext fun c => hashStep_eq h c
  rw [hfun]

theorem mem_oneToSix (x : Nat) (h : x ∈ [1, 2, 3, 4, 5, 6]) : 1 ≤ x ∧ x ≤ 6 := by
  simp only [List.mem_cons, List.not_mem_nil, or_false] at h
  rcases h with h | h | h | h | h | h <;> omega

/-! ### Claim theorems: the generator -/

/-- C5: `generateDailyCode` is a pure function of `(dateString, allowDuplicates)`:
two calls with the same arguments yield identical 4-element sequences, and the
derived seed (`hashCode`) is a pure function of the input string.  In the
embedding the generator and the hash are Lean functions of exactly these
arguments (no other state exists), so purity is determinism in the arguments. -/
theorem claim_C5 (d1 d2 : String) (a1 a2 : Bool) (hd : d1 = d2) (ha : a1 = a2) :
    generateDailyCode d1 a1 = generateDailyCode d2 a2
      ∧ hashCode d1 = hashCode d2
      ∧ (generateDailyCode d1 a1).length = 4 := by
  subst hd
  subst ha
  exact ⟨rfl, rfl, generateDailyCode_length d1 a1⟩

theorem claim_C5_witness :
    ("2024-01-01" : String) = "2024-01-01" ∧ (false : Bool) = false
      ∧ (generateDailyCode "2024-01-01" false = generateDailyCode "2024-01-01" false
          ∧ hashCode "2024-01-01" = hashCode "2024-01-01"
          ∧ (generateDailyCode "2024-01-01" false).length = 4) :=
  ⟨rfl, rfl, claim_C5 "2024-01-01" "2024-01-01" false false rfl rfl⟩

/-- C6: for every input string (in particular every non-empty one),
`generateDailyCode s false` is a sequence of exactly 4 pairwise-distinct
integers in 1..6; with `allowDuplicates = true` each of the 4 values is still
in 1..6. -/
theorem claim_C6 (s : String) :
    ((generateDailyCode s false).length = 4
      ∧ (generateDailyCode s false).Nodup
      ∧ ∀ x ∈ generateDailyCode s false, 1 ≤ x ∧ x ≤ 6)
    ∧ ((generateDailyCode s true).length = 4
      ∧ ∀ x ∈ generateDailyCode s true, 1 ≤ x ∧ x ≤ 6) := by
  obtain ⟨h1, h2, h3, _⟩ := genLoop_false_inv 4 (hashCode s) [] (by simp) (by simp) (by simp)
  obtain ⟨g1, g2, _⟩ := genLoop_true_inv 4 (hashCode s) [] (by simp)
  exact ⟨⟨by simpa using h1, h2, fun x hx => mem_oneToSix x (h3 x hx)⟩,
    ⟨by simpa using g1, fun x hx => mem_oneToSix x (g2 x hx)⟩⟩

/-- C7: the seed is `Math.abs` of the hash obtained by accumulating
`hash*31 + charCode` with 32-bit signed wraparound at every step (the source
shift-by-5-minus-self formulation, proved equal), and the pseudo-random stream
satisfies `state = (state * 1664525 + 1013904223) mod 2^32` at each call,
yielding `state / 2^32 ∈ [0, 1)`, all in exact arithmetic. -/
theorem claim_C7 :
    (∀ s : String, hashCode s = (hashAccumSpec s).natAbs)
      ∧ (∀ (s : String) (aD : Bool), generateDailyCode s aD = genLoop aD 4 (hashCode s) [])
      ∧ (∀ st : Nat, lcgNext st = (st * 1664525 + 1013904223) % 2 ^ 32)
      ∧ (∀ seed n : Nat, lcgState seed (n + 1) = (lcgState seed n * 1664525 + 1013904223) % 2 ^ 32)
      ∧ (∀ st : Nat, rngOut st = (st : ℚ) / 2 ^ 32)
      ∧ (∀ st : Nat, 0 ≤ rngOut (lcgNext st) ∧ rngOut (lcgNext st) < 1) := by
  refine ⟨hashCode_eq_spec, fun s aD => rfl, fun st => by norm_num [lcgNext],
    fun seed n => by norm_num [lcgState, lcgNext], fun st => by norm_num [rngOut],
    fun st => ⟨by rw [rngOut]; positivity, ?_⟩⟩
  rw [rngOut, div_lt_one (by norm_num)]
  exact_mod_cast lcgNext_lt st

/-- C10: `generateDailyCode` is total over the embedding: the checked variant,
which fails on any out-of-range pool access, succeeds and returns the very
sequence the defaulting variant computes, and that sequence has exactly 4
elements — for every input string and either duplicates mode. -/
theorem claim_C10 (s : String) (aD : Bool) :
    genLoopChecked aD 4 (hashCode s) [] = some (generateDailyCode s aD)
      ∧ (generateDailyCode s aD).length = 4 := by
  cases aD
  · obtain ⟨h1, _, _, h4⟩ := genLoop_false_inv 4 (hashCode s) [] (by simp) (by simp) (by simp)
    exact ⟨h4, by simpa using h1⟩
  · obtain ⟨h1, _, h3⟩ := genLoop_true_inv 4 (hashCode s) [] (by simp)
    exact ⟨h3, by simpa using h1⟩

/-! ### Streak lemmas -/

theorem updStats_currentStreak_won (s : Stats) (date : String) (g t : Nat) :
    (updStats s date true g t).currentStreak
      = if s.lastPlayDate = some (yesterdayString date) then s.currentStreak + 1 else 1 := rfl

theorem updStats_currentStreak_lost (s : Stats) (date : String) (g t : Nat) :
    (updStats s date false g t).currentStreak = 0 := rfl

theorem updStats_lastPlayDate (s : Stats) (date : String) (w : Bool) (g t : Nat) :
    (updStats s date w g t).lastPlayDate = some date := by
  cases w <;> rfl

theorem updStats_maxStreak (s : Stats) (date : String) (w : Bool) (g t : Nat) :
    (updStats s date w g t).maxStreak
      = max s.maxStreak (updStats s date w g t).currentStreak := by
  cases w
  · show s.maxStreak = max s.maxStreak 0
    exact (Nat.max_zero s.maxStreak).symm
  · rfl

theorem playAll_maxStreak (ps : List PlayReq) : ∀ s : Stats,
    (playAll s ps).maxStreak = (streakHistory s ps).foldl max s.maxStreak := by
  induction ps with
  | nil => intro s; rfl
  | cons r rs ih =>
    intro s
    have h1 : playAll s (r :: rs) = playAll (updStats s r.date r.won r.guesses r.time) rs := rfl
    have h2 : streakHistory s (r :: rs)
        = (updStats s r.date r.won r.guesses r.time).currentStreak
          :: streakHistory (updStats s r.date r.won r.guesses r.time) rs := rfl
    rw [h1, h2, ih, List.foldl_cons, updStats_maxStreak]

/-- C3: for every accepted submission, if won, `currentStreak` becomes the old
streak + 1 exactly when the stored `lastPlayDate` equals the ISO string of the
calendar day immediately preceding the submitted date, and 1 otherwise; if not
won it becomes 0; `lastPlayDate` is set to the submitted date unconditionally;
and over any submission history from a fresh player, `maxStreak` equals the
running maximum of `currentStreak`. -/
theorem claim_C3 :
    (∀ (s : Stats) (date : String) (g t : Nat),
        (updStats s date true g t).currentStreak
          = if s.lastPlayDate = some (yesterdayString date) then s.currentStreak + 1 else 1)
      ∧ (∀ (s : Stats) (date : String) (g t : Nat),
          (updStats s date false g t).currentStreak = 0)
      ∧ (∀ (s : Stats) (date : String) (w : Bool) (g t : Nat),
          (updStats s date w g t).lastPlayDate = some date)
      ∧ (∀ ps : List PlayReq,
          (playAll initStats ps).maxStreak = (streakHistory initStats ps).foldl max 0) :=
  ⟨updStats_currentStreak_won, updStats_currentStreak_lost, updStats_lastPlayDate,
    fun ps => playAll_maxStreak ps initStats⟩

/-! ### Leaderboard lemmas -/

theorem insertDesc_perm (e : LBEntry) : ∀ l, (insertDesc e l).Perm (e :: l) := by
  intro l
  induction l with
  | nil => exact List.Perm.refl _
  | cons y ys ih =>
    simp only [insertDesc]
    by_cases h : y.score ≤ e.score
    · rw [if_pos h]
    · rw [if_neg h]
      exact (List.Perm.cons y ih).trans (List.Perm.swap e y ys)

theorem insertDesc_sorted (e : LBEntry) : ∀ l,
    l.Pairwise (fun e1 e2 => e2.score ≤ e1.score) →
    (insertDesc e l).Pairwise (fun e1 e2 => e2.score ≤ e1.score) := by
  intro l
  induction l with
  | nil =>
    intro _
    simp [insertDesc]
  | cons y ys ih =>
    intro hp
    obtain ⟨hy, hys⟩ := List.pairwise_cons.mp hp
    simp only [insertDesc]
    by_cases h : y.score ≤ e.score
    · rw [if_pos h]
      refine List.pairwise_cons.mpr ⟨?_, hp⟩
      intro a ha
      rcases List.mem_cons.mp ha with rfl | ha2
      · exact h
      · exact le_trans (hy a ha2) h
    · rw [if_neg h]
      refine List.pairwise_cons.mpr ⟨?_, ih hys⟩
      intro a ha
      rcases List.mem_cons.mp ((insertDesc_perm e ys).mem_iff.mp ha) with rfl | ha2
      · exact le_of_lt (lt_of_not_le h)
      · exact hy a ha2

theorem sortEntriesDesc_perm : ∀ l, (sortEntriesDesc l).Perm l := by
  intro l
  induction l with
  | nil => exact List.Perm.refl _
  | cons x xs ih => exact (insertDesc_perm x (sortEntriesDesc xs)).trans (List.Perm.cons x ih)

theorem sortEntriesDesc_sorted : ∀ l,
    (sortEntriesDesc l).Pairwise (fun e1 e2 => e2.score ≤ e1.score) := by
  intro l
  induction l with
  | nil => simp [sortEntriesDesc]
  | cons x xs ih => exact insertDesc_sorted x _ ih

theorem find?_upsertBy {α : Type} (key : α → Bool) (x : α) (hx : key x = true) :
    ∀ l : List α, (upsertBy key x l).find? key = some x := by
  intro l
  induction l with
  | nil => simp [upsertBy, List.find?_cons_of_pos, hx]
  | cons y ys ih =>
    simp only [upsertBy]
    by_cases h : key y
    · rw [if_pos h]
      exact List.find?_cons_of_pos _ hx
    · rw [if_neg h]
      rw [List.find?_cons_of_neg _ (by simp [h])]
      exact ih

theorem getD_board_fields (db : DB) (date : String) :
    ((findDailyBoard db date).getD (newBoard date)).date = date
      ∧ ((findDailyBoard db date).getD (newBoard date)).type = "daily" := by
  cases hfb : findDailyBoard db date with
  | none => exact ⟨rfl, rfl⟩
  | some b0 =>
    have hfb2 : db.boards.find? (fun b => b.date == date && b.type == "daily") = some b0 := hfb
    have h := List.find?_some hfb2
    simp only [Bool.and_eq_true, beq_iff_eq] at h
    simp only [Option.getD_some]
    exact h

theorem findDailyBoard_save (db : DB) (b : Board) (d : String)
    (hd : b.date = d) (ht : b.type = "daily") :
    findDailyBoard (saveBoard db b) d = some b := by
  show (upsertBy (fun c => c.date == b.date && c.type == b.type) b db.boards).find?
      (fun c => c.date == d && c.type == "daily") = some b
  rw [hd, ht]
  exact find?_upsertBy _ b (by simp [hd, ht]) db.boards

theorem findDailyBoard_update (db : DB) (date : String) (p : Player) (g t : Nat) :
    findDailyBoard (updateLeaderboards db date p true g t) date
      = some { date := date, type := "daily",
               entries := (sortEntriesDesc (boardEntries db date ++ [mkEntry p g t])).take 100 } := by
  obtain ⟨hd, ht⟩ := getD_board_fields db date
  have heq : updateLeaderboards db date p true g t
      = saveBoard db
          { date := date, type := "daily",
            entries := (sortEntriesDesc (boardEntries db date ++ [mkEntry p g t])).take 100 } := by
    show saveBoard db
        { date := ((findDailyBoard db date).getD (newBoard date)).date,
          type := ((findDailyBoard db date).getD (newBoard date)).type,
          entries := (sortEntriesDesc (((findDailyBoard db date).getD (newBoard date)).entries
            ++ [mkEntry p g t])).take 100 } = _
    rw [hd, ht]
    rfl
  rw [heq]
  exact findDailyBoard_save db _ date rfl rfl

theorem boardEntries_update (db : DB) (date : String) (p : Player) (g t : Nat) :
    boardEntries (updateLeaderboards db date p true g t) date
      = (sortEntriesDesc (boardEntries db date ++ [mkEntry p g t])).take 100 := by
  unfold boardEntries
  rw [findDailyBoard_update db date p g t]
  rfl

/-! ### Claim theorems: the leaderboard -/

/-- C4: after every `updateLeaderboards` call of a winning submission, the
daily board of the submitted date exists, its entries are sorted by score in
descending order and number at most 100; a losing submission leaves the store
(hence every board) exactly as it was, so only winning submissions ever add an
entry. -/
theorem claim_C4 :
    (∀ (db : DB) (date : String) (p : Player) (g t : Nat),
        updateLeaderboards db date p false g t = db)
      ∧ (∀ (db : DB) (date : String) (p : Player) (g t : Nat),
          ∃ b : Board, findDailyBoard (updateLeaderboards db date p true g t) date = some b
            ∧ b.entries.Pairwise (fun e1 e2 => e2.score ≤ e1.score)
            ∧ b.entries.length ≤ 100) := by
  refine ⟨fun db date p g t => rfl, fun db date p g t => ?_⟩
  refine ⟨_, findDailyBoard_update db date p g t, ?_, ?_⟩
  · exact List.Pairwise.sublist (List.take_sublist _ _) (sortEntriesDesc_sorted _)
  · exact List.length_take_le _ _

/-- C8: every entry of a daily board after a winning submission either was on
the board before or carries the score `1000 - guesses*100 - timeMs/10`
(unclamped, so possibly negative), and that score is strictly decreasing in
the number of guesses and in the elapsed time. -/
theorem claim_C8 :
    (∀ (db : DB) (date : String) (p : Player) (g t : Nat) (e : LBEntry),
        e ∈ boardEntries (updateLeaderboards db date p true g t) date →
        e ∈ boardEntries db date ∨ e.score = 1000 - (g : ℚ) * 100 - (t : ℚ) / 10)
      ∧ (∀ g1 g2 t : Nat, g1 < g2 → score g2 t < score g1 t)
      ∧ (∀ g t1 t2 : Nat, t1 < t2 → score g t2 < score g t1) := by
  refine ⟨?_, ?_, ?_⟩
  · intro db date p g t e he
    rw [boardEntries_update db date p g t] at he
    have he2 := List.take_subset _ _ he
    rcases List.mem_append.mp ((sortEntriesDesc_perm _).mem_iff.mp he2) with h | h
    · exact Or.inl h
    · right
      have he3 : e = mkEntry p g t := by simpa using h
      rw [he3]
      rfl
  · intro g1 g2 t h
    unfold score
    have hc : (g1 : ℚ) < (g2 : ℚ) := by exact_mod_cast h
    linarith
  · intro g t1 t2 h
    unfold score
    have hc : (t1 : ℚ) < (t2 : ℚ) := by exact_mod_cast h
    have hc2 : (t1 : ℚ) / 10 < (t2 : ℚ) / 10 := by linarith
    linarith

theorem claim_C8_witness :
    e0C8 ∈ boardEntries (updateLeaderboards db0C8 "2024-01-03" (newPlayer "bob") true 4 200) "2024-01-03"
      ∧ (e0C8 ∈ boardEntries db0C8 "2024-01-03"
          ∨ e0C8.score = 1000 - ((4 : Nat) : ℚ) * 100 - ((200 : Nat) : ℚ) / 10)
      ∧ (4 : Nat) < 5 ∧ score 5 200 < score 4 200
      ∧ (200 : Nat) < 300 ∧ score 4 300 < score 4 200 := by
  have hmem : e0C8 ∈ boardEntries
      (updateLeaderboards db0C8 "2024-01-03" (newPlayer "bob") true 4 200) "2024-01-03" := by
    show e0C8 ∈ [e0C8]
    exact List.mem_cons_self _ _
  exact ⟨hmem, claim_C8.1 db0C8 "2024-01-03" (newPlayer "bob") 4 200 e0C8 hmem,
    by norm_num, claim_C8.2.1 4 5 200 (by norm_num),
    by norm_num, claim_C8.2.2 4 200 300 (by norm_num)⟩

/-! ### Claim theorems: the submission processor -/

/-- C1 (code bug): the claim says a submission for a date with no DailyPuzzle
fails with NotFound and mutates nothing.  The code instead saves the updated
player document (stats, game history and lastPlayDate) before ever looking the
puzzle up, and then throws a TypeError reading `puzzle.totalPlayers` of a
missing puzzle while building the response (an internal error, not NotFound).
Evaluated on an empty store: the outcome is `internalError` and the player
collection has been mutated. -/
theorem claim_C1 :
    findPuzzle db0C1 "2024-01-02" = none
      ∧ submit db0C1 "alice" "2024-01-02" false 3 500 []
          = ({ players := [p1C1], puzzles := [], boards := [] }, SubmitOutcome.internalError)
      ∧ (submit db0C1 "alice" "2024-01-02" false 3 500 []).1 ≠ db0C1 := by
  refine ⟨rfl, rfl, ?_⟩
  decide

/-- C2: a submission for a (player, date) for which the player already has a
game entry is rejected with the AlreadyPlayed conflict and returns the store
untouched — the player record, the puzzle record and every leaderboard are
exactly as the earlier submission left them. -/
theorem claim_C2 (db : DB) (pid date : String) (won : Bool) (g t : Nat)
    (atts : List (List Nat)) (p : Player)
    (hp : findPlayer db pid = some p)
    (hdup : p.games.any (fun e => e.date == date) = true) :
    submit db pid date won g t atts = (db, SubmitOutcome.alreadyPlayed) := by
  unfold submit
  rw [hp]
  simp [hdup]

theorem claim_C2_witness :
    findPlayer db0C2 "alice" = some p0C2
      ∧ p0C2.games.any (fun e => e.date == "2024-01-01") = true
      ∧ submit db0C2 "alice" "2024-01-01" true 3 200 [] = (db0C2, SubmitOutcome.alreadyPlayed) :=
  ⟨by decide, by decide,
    claim_C2 db0C2 "alice" "2024-01-01" true 3 200 [] p0C2 (by decide) (by decide)⟩

/-! ### Claim theorems: puzzle aggregates -/

/-- C9: after every accepted winning submission the puzzle record satisfies
`averageGuesses = totalGuesses / completedPlayers`; at creation both
`averageGuesses` and `completedPlayers` are 0 (the 0-convention of the spec); and a
puzzle whose three completed winners used 2, 3 and 4 guesses has
`averageGuesses = 3`. -/
theorem claim_C9 :
    (∀ (pz : Puzzle) (pid : String) (uname : Option String) (g t : Nat),
        (updPuzzle pz pid uname true g t).averageGuesses
          = ((updPuzzle pz pid uname true g t).totalGuesses : ℚ)
            / ((updPuzzle pz pid uname true g t).completedPlayers : ℚ))
      ∧ (∀ (d : String) (sol : List Nat),
          (newPuzzle d sol).averageGuesses = 0 ∧ (newPuzzle d sol).completedPlayers = 0)
      ∧ (updPuzzle (updPuzzle (updPuzzle (newPuzzle "2024-01-01" [1, 2, 3, 4])
            "a" none true 2 100) "b" none true 3 100) "c" none true 4 100).averageGuesses = 3 := by
  refine ⟨?_, fun d sol => ⟨rfl, rfl⟩, ?_⟩
  · intro pz pid uname g t
    unfold updPuzzle
    cases pz.fastestTime with
    | none => simp
    | some v =>
      by_cases hv : v = 0 ∨ t < v
      · simp [hv]
      · simp [hv]
  · norm_num [updPuzzle, newPuzzle, strOr]
